import Mathlib

/-!
Verification of the go-bench-away job queue and web surface.

The development shallowly embeds the Go source of the repository:

* `v1/client/queue.go` — `LoadJobs`, `FindJobOffset`, `LoadJobsFiltered`,
  `CancelJob`, `FailStaleJobs`;
* `internal/web/handler.go` — `ServeHTTP`, `serveQueue`, `serveJobResource`,
  `calculatePagination`.

Machine integers (`int`, `uint64`) are embedded as `Int`/`Nat`; the Go code
never exercises overflow on the values the claims are about.  The NATS broker
is embedded as an oracle state: a message stream (sequence bounds plus a
lookup function where `none` models a purged/missing message) and the
revisioned key–value store.  JSON decoding of a stored record
(`core.LoadJob`) is embedded by letting the KV oracle answer
`some none` — key present, bytes that do not decode — versus
`some (some record)` — key present, bytes that decode to `record`.
Broker-level failures of `StreamInfo`/`WatchAll` (which the Go code turns
into early error returns without inspecting any record) are outside the
model; each operation is modelled on the path where those calls succeed.
-/

namespace GBA

/-- Job status enum of `core.JobStatus` (spec §3; the `core` package is a
dependency of the sources under verification). -/
inductive JobStatus
  | Submitted
  | Running
  | Succeeded
  | Failed
  | Cancelled
deriving DecidableEq, Repr

/-- The fields of `core.JobParameters` read by the verified operations
(`FindJobOffset`'s query matching and `FailStaleJobs`' timeout check);
the remaining parameters are never inspected by them. -/
structure JobParameters where
  gitRemote : String
  gitRef : String
  testsFilterExpr : String
  timeout : Int
deriving DecidableEq, Repr

/-- `core.JobRecord` (spec §3).  Timestamps are instants on an integer
time line. -/
structure JobRecord where
  id : String
  parameters : JobParameters
  status : JobStatus
  created : Int
  started : Int
  completed : Int
  worker : String
  reason : String
deriving DecidableEq, Repr

/-- Modelled from the spec: `core.JobRecord.SetFinalStatus` (package `core`
is not under the staged sources).  Spec §4.2 describes its effect at the
`CancelJob` call site: "sets `status = Cancelled`, `completed = now`" — the
function stores the given terminal status and stamps `completed`; no other
field is touched. -/
def SetFinalStatus (jr : JobRecord) (s : JobStatus) (now : Int) : JobRecord :=
  { jr with status := s, completed := now }

/-! ## The submit stream and its KV, as `LoadJobs`/`FindJobOffset` see them -/

/-- One consistent snapshot of the broker, as the stream-walking operations
of `queue.go` observe it.  `getMsg i = none` models `js.GetMsg` failing at
sequence `i` (purged entry / gap); `getMsg i = some h` yields the message
whose `KJobIdHeader` header is `h` (`""` = header absent).  `kvGet id`
models `jobsRepository.Get` composed with `core.LoadJob`: `none` = the KV
get fails, `some none` = the key is present but its bytes do not decode,
`some (some j)` = the key decodes to record `j`. -/
structure StreamState where
  firstSeq : Nat
  lastSeq : Nat
  getMsg : Nat → Option String
  kvGet : String → Option (Option JobRecord)

/-- The ascending sequence walk `for i := firstSeq; i <= lastSeq; i++`. -/
def seqsAsc (st : StreamState) : List Nat :=
  List.range' st.firstSeq (st.lastSeq + 1 - st.firstSeq)

/-- The descending walk of `LoadJobs`: `i` from `lastSeq` down, breaking as
soon as `i < firstSeq || i == 0` (sequence 0 is never processed). -/
def seqsDesc (st : StreamState) : List Nat :=
  (seqsAsc st).reverse.filter (fun i => i ≠ 0)

def seqs (st : StreamState) (asc : Bool) : List Nat :=
  if asc then seqsAsc st else seqsDesc st

/-- `sInfo.State.Msgs`: how many messages the stream actually holds. -/
def msgCount (st : StreamState) : Nat :=
  (seqsAsc st).countP (fun i => (st.getMsg i).isSome)

/-- What one iteration of the `LoadJobs` loop body delivers at sequence `i`:
`GetMsg`, the `KJobIdHeader` header, `jobsRepository.Get` and `core.LoadJob`
must all succeed, each failure is a `continue`. -/
def deliver (st : StreamState) (i : Nat) : Option JobRecord :=
  match st.getMsg i with
  | none => none
  | some jobId =>
    if jobId = "" then none
    else
      match st.kvGet jobId with
      | none => none
      | some none => none
      | some (some job) => some job

/-- The records a full walk in the given direction delivers, in walk order. -/
def delivered (st : StreamState) (asc : Bool) : List JobRecord :=
  (seqs st asc).filterMap (deliver st)

/-- The loop of `Client.LoadJobs` (queue.go:97-140) over the remaining
sequences, carrying the `skipped` (offset budget spent) and `collected`
(records kept) counters. -/
def loadJobsLoop (st : StreamState) (limit offset : Int) :
    List Nat → Int → Int → List JobRecord
  | [], _, _ => []
  | i :: rest, skipped, collected =>
    match deliver st i with
    | none => loadJobsLoop st limit offset rest skipped collected
    | some job =>
      if skipped < offset then
        loadJobsLoop st limit offset rest (skipped + 1) collected
      else if limit > 0 ∧ collected + 1 ≥ limit then [job]
      else job :: loadJobsLoop st limit offset rest skipped (collected + 1)

/-- `Client.LoadJobs(limit, offset, asc)` (queue.go:64-143). -/
def LoadJobs (st : StreamState) (limit offset : Int) (asc : Bool) :
    List JobRecord :=
  if msgCount st = 0 then []
  else loadJobsLoop st limit offset (seqs st asc) 0 0

/-- `LoadJobs`' limit policy: a positive limit truncates, any other limit
keeps everything. -/
def applyLimit (limit : Int) (l : List JobRecord) : List JobRecord :=
  if 0 < limit then l.take limit.toNat else l

/-! ## Search: `FindJobOffset` (queue.go:160-235) -/

/-- `strings.Contains` on character lists: some suffix of `hay` starts with
`needle`. -/
def containsList (needle : List Char) : List Char → Bool
  | [] => needle.isEmpty
  | c :: t => needle.isPrefixOf (c :: t) || containsList needle t

/-- `containsIgnoreCase(s, substr)` (queue.go:499-501):
`strings.Contains(strings.ToLower(s), strings.ToLower(substr))`. -/
def containsIgnoreCase (s substr : String) : Bool :=
  containsList (substr.toList.map Char.toLower) (s.toList.map Char.toLower)

/-- The match test of `FindJobOffset`'s second scan (queue.go:222-225): the
query occurs case-insensitively in the id, git ref, git remote or tests
filter. -/
def matchesQuery (job : JobRecord) (query : String) : Bool :=
  containsIgnoreCase job.id query ||
    containsIgnoreCase job.parameters.gitRef query ||
    containsIgnoreCase job.parameters.gitRemote query ||
    containsIgnoreCase job.parameters.testsFilterExpr query

/-- Whether sequence `i` enters `seqToOffset` in `FindJobOffset`'s first
scan (queue.go:178-193): `GetMsg`, the header and `jobsRepository.Get` must
succeed.  Unlike `deliver`, the record bytes are NOT decoded here. -/
def indexable (st : StreamState) (i : Nat) : Bool :=
  match st.getMsg i with
  | none => false
  | some jobId => if jobId = "" then false else (st.kvGet jobId).isSome

/-- The `seqToOffset` index built by the first scan, as an association list
in scan order: each indexable sequence is paired with the running counter
`msgIndex`. -/
def seqOffsets (st : StreamState) : List Nat → Nat → List (Nat × Nat)
  | [], _ => []
  | i :: rest, idx =>
    if indexable st i then (i, idx) :: seqOffsets st rest (idx + 1)
    else seqOffsets st rest idx

/-- The second, descending scan of `FindJobOffset` (queue.go:195-232): skip
sequences outside the index, re-fetch and decode, and return the indexed
offset of the newest match. -/
def findLoop (st : StreamState) (query : String)
    (index : List (Nat × Nat)) : List Nat → Int
  | [] => -1
  | i :: rest =>
    match index.lookup i with
    | none => findLoop st query index rest
    | some off =>
      match deliver st i with
      | none => findLoop st query index rest
      | some job =>
        if matchesQuery job query then (off : Int)
        else findLoop st query index rest

/-- `Client.FindJobOffset(query)` (queue.go:160-235).  The descending scan
runs from `lastSeq` down to `firstSeq` and, unlike `LoadJobs`' descending
walk, processes sequence 0 (its `i == 0` break sits at the bottom of the
loop body). -/
def FindJobOffset (st : StreamState) (query : String) : Int :=
  if query = "" then -1
  else if msgCount st = 0 then -1
  else findLoop st query (seqOffsets st (seqsAsc st) 0) (seqsAsc st).reverse

/-- No key of the KV holds bytes that fail to decode: the well-formedness
under which `FindJobOffset`'s index (which skips the decode check) agrees
with the delivered count of `LoadJobs`. -/
def NoMalformed (st : StreamState) : Prop :=
  ∀ k, st.kvGet k ≠ some none

/-! ## Status-filtered listing: `LoadJobsFiltered` (queue.go:237-359) -/

/-- The `allTransient` test of queue.go:281-288: every status in the
(non-empty) set is `Submitted` or `Running`. -/
def allTransient (statuses : List JobStatus) : Bool :=
  statuses.all (fun s =>
    match s with
    | .Submitted => true
    | .Running => true
    | _ => false)

/-- `fetchLimit` (queue.go:274-277): fetch one record beyond `limit` so a
further page can be detected; a non-positive limit disables the cap. -/
def fetchLimitOf (limit : Int) : Int :=
  if limit ≤ 0 then 0 else limit + 1

/-- The loop of `LoadJobsFiltered` (queue.go:293-346) over the remaining
sequences, carrying `skipped`, `collected` and `scanned`.  Every iteration
that reaches `GetMsg` increments `scanned` exactly once (on both the error
and the success path); the scan-depth break `scanned >= maxScan` fires only
for a positive `maxScan`. -/
def loadJobsFilteredLoop (st : StreamState) (statuses : List JobStatus)
    (offset fetchLimit maxScan : Int) :
    List Nat → Int → Int → Int → List JobRecord
  | [], _, _, _ => []
  | i :: rest, skipped, collected, scanned =>
    if maxScan > 0 ∧ scanned ≥ maxScan then []
    else
      match deliver st i with
      | none =>
        loadJobsFilteredLoop st statuses offset fetchLimit maxScan rest
          skipped collected (scanned + 1)
      | some job =>
        if statuses ≠ [] ∧ job.status ∉ statuses then
          loadJobsFilteredLoop st statuses offset fetchLimit maxScan rest
            skipped collected (scanned + 1)
        else if skipped < offset then
          loadJobsFilteredLoop st statuses offset fetchLimit maxScan rest
            (skipped + 1) collected (scanned + 1)
        else if fetchLimit > 0 ∧ collected + 1 ≥ fetchLimit then [job]
        else
          job :: loadJobsFilteredLoop st statuses offset fetchLimit maxScan rest
            skipped (collected + 1) (scanned + 1)

/-- The tail of `LoadJobsFiltered` after the loop (queue.go:348-358): trim
to `limit` when one record beyond it was fetched, and report
`offset + len(jobs) (+1 when there is more)`. -/
def trimJobs (limit offset : Int) (js : List JobRecord) :
    List JobRecord × Int :=
  let hasMore := limit > 0 ∧ (js.length : Int) > limit
  let jobs := if hasMore then js.take limit.toNat else js
  (jobs, offset + (jobs.length : Int) + (if hasMore then 1 else 0))

/-- The listing restricted to an explicit sequence list and run without a
scan cap: the reference point the scan-cap theorem compares
`LoadJobsFiltered` against. -/
def loadJobsFilteredOn (st : StreamState) (limit offset : Int)
    (statuses : List JobStatus) (l : List Nat) : List JobRecord × Int :=
  if msgCount st = 0 then ([], 0)
  else
    trimJobs limit offset
      (loadJobsFilteredLoop st statuses offset (fetchLimitOf limit) 0 l 0 0 0)

/-- `Client.LoadJobsFiltered(limit, offset, asc, statuses)`
(queue.go:237-359): the walk is capped at 50 scanned messages exactly when
the status set is non-empty and all-transient. -/
def LoadJobsFiltered (st : StreamState) (limit offset : Int) (asc : Bool)
    (statuses : List JobStatus) : List JobRecord × Int :=
  if msgCount st = 0 then ([], 0)
  else
    trimJobs limit offset
      (loadJobsFilteredLoop st statuses offset (fetchLimitOf limit)
        (if statuses ≠ [] ∧ allTransient statuses = true then 50 else 0)
        (seqs st asc) 0 0 0)

/-! ## The revisioned KV and the operations on job records

`CancelJob` and `FailStaleJobs` act on the KV alone.  The KV is embedded
as a map from key to decoded record and revision; `watchAll` snapshots are
embedded as the list of decoded records its `KeyValuePut` entries carry. -/

def KV : Type := String → Option (JobRecord × Nat)

/-- Overwrite one key of the KV. -/
def kvPut (kv : KV) (key : String) (rec : JobRecord) (rev : Nat) : KV :=
  fun k => if k = key then some (rec, rev) else kv k

/-- Modelled from the spec: `Client.LoadJob(id)` (`client.go` is not under
the staged sources) — spec §4.2: "KV get plus decode". -/
def LoadJob (kv : KV) (id : String) : Option (JobRecord × Nat) :=
  kv id

/-- Modelled from the spec: `Client.UpdateJob(record, revision)` — spec
§4.2: "KV update; revision must match", at the record's own key (§6: key
layout `jobs.<uuid>` from the record id); §3: "The KV revision for a record
increases by exactly one per successful update". -/
def UpdateJob (kv : KV) (rec : JobRecord) (rev : Nat) : Option KV :=
  match kv rec.id with
  | none => none
  | some (_, cur) => if cur = rev then some (kvPut kv rec.id rec (cur + 1)) else none

/-- Every key holds a record whose id field is that key — what `SubmitJob`
establishes (it creates `jobs.<id>` from the record with that id). -/
def WellFormedKV (kv : KV) : Prop :=
  ∀ id rec rev, kv id = some (rec, rev) → rec.id = id

/-- The error outcomes of `CancelJob` (queue.go:40-58), by the spec §7
taxonomy: `LoadJob` failure, the "cannot cancel job in state %s" error
(`IllegalState`), and an `UpdateJob` revision mismatch (`Conflict`). -/
inductive CancelError
  | notFound
  | illegalState (s : JobStatus)
  | conflict
deriving DecidableEq, Repr

/-- `Client.CancelJob(jobId)` (queue.go:40-58): load, require `Submitted`,
set the final status `Cancelled` and write back under the observed
revision. -/
def CancelJob (kv : KV) (jobId : String) (now : Int) :
    Option CancelError × KV :=
  match LoadJob kv jobId with
  | none => (some .notFound, kv)
  | some (jobRecord, revision) =>
    if jobRecord.status ≠ .Submitted then
      (some (.illegalState jobRecord.status), kv)
    else
      match UpdateJob kv (SetFinalStatus jobRecord .Cancelled now) revision with
      | none => (some .conflict, kv)
      | some kv' => (none, kv')

/-- The first pass of `FailStaleJobs` (queue.go:447-471): the ids of the
snapshot records in `Running` whose elapsed time exceeds their timeout. -/
def staleCandidates (snapshot : List JobRecord) (now : Int) : List String :=
  (snapshot.filter
    (fun j => j.status = .Running ∧ now - j.started > j.parameters.timeout)).map
    (fun j => j.id)

/-- The second pass of `FailStaleJobs` (queue.go:476-495): re-load each
candidate, skip it when the load fails or the status is no longer
`Running`, otherwise transition to `Failed` under the loaded revision and
count the successful updates. -/
def failStaleLoop (now : Int) : List String → KV → Nat × KV
  | [], kv => (0, kv)
  | id :: rest, kv =>
    match LoadJob kv id with
    | none => failStaleLoop now rest kv
    | some (job, revision) =>
      if job.status ≠ .Running then failStaleLoop now rest kv
      else
        match UpdateJob kv (SetFinalStatus job .Failed now) revision with
        | none => failStaleLoop now rest kv
        | some kv' =>
          let r := failStaleLoop now rest kv'
          (r.1 + 1, r.2)

/-- The ids whose update in the second pass succeeds, in processing order
(a proof-side shadow of the `updated` counter). -/
def failStaleIds (now : Int) : List String → KV → List String
  | [], _ => []
  | id :: rest, kv =>
    match LoadJob kv id with
    | none => failStaleIds now rest kv
    | some (job, revision) =>
      if job.status ≠ .Running then failStaleIds now rest kv
      else
        match UpdateJob kv (SetFinalStatus job .Failed now) revision with
        | none => failStaleIds now rest kv
        | some kv' => id :: failStaleIds now rest kv'

/-- `Client.FailStaleJobs()` (queue.go:432-497) over a `watchAll` snapshot
and the current KV. -/
def FailStaleJobs (snapshot : List JobRecord) (kv : KV) (now : Int) :
    Nat × KV :=
  failStaleLoop now (staleCandidates snapshot now) kv

/-! ## Concrete broker snapshots used by the counterexamples -/

/-- A well-formed submitted job record. -/
def jobA : JobRecord :=
  { id := "a"
    parameters :=
      { gitRemote := "u/x", gitRef := "main", testsFilterExpr := "Bench",
        timeout := 60 }
    status := .Submitted
    created := 0, started := 0, completed := 0
    worker := "", reason := "" }

/-- A one-message stream whose single entry delivers `jobA`. -/
def st1 : StreamState :=
  { firstSeq := 1, lastSeq := 1
    getMsg := fun i => if i = 1 then some "a" else none
    kvGet := fun k => if k = "a" then some (some jobA) else none }

/-- A record whose git ref is "y": the target of the search counterexample. -/
def jobB : JobRecord :=
  { id := "b"
    parameters :=
      { gitRemote := "u/b", gitRef := "y", testsFilterExpr := "",
        timeout := 60 }
    status := .Submitted
    created := 0, started := 0, completed := 0
    worker := "", reason := "" }

/-- A stream whose first entry resolves in the KV but holds malformed record
bytes (`some none`), followed by the record matching "y".  `FindJobOffset`'s
first scan indexes the malformed entry (it never decodes), `LoadJobs` skips
it, so the two count different offsets. -/
def stC1 : StreamState :=
  { firstSeq := 1, lastSeq := 2
    getMsg := fun i => if i = 1 then some "mal" else if i = 2 then some "b" else none
    kvGet := fun k =>
      if k = "mal" then some none
      else if k = "b" then some (some jobB) else none }

/-- The records used by the witness scenario (spec §8, scenario 4): three
jobs with git remotes `u/x`, `u/y`, `u/z`. -/
def jobW (theId remote : String) : JobRecord :=
  { id := theId
    parameters :=
      { gitRemote := remote, gitRef := "main", testsFilterExpr := "",
        timeout := 60 }
    status := .Submitted
    created := 0, started := 0, completed := 0
    worker := "", reason := "" }

/-- A clean three-message stream: ids `ja`, `jb`, `jc` with remotes `u/x`,
`u/y`, `u/z`, every record well-formed. -/
def stW : StreamState :=
  { firstSeq := 1, lastSeq := 3
    getMsg := fun i =>
      if i = 1 then some "ja" else if i = 2 then some "jb"
      else if i = 3 then some "jc" else none
    kvGet := fun k =>
      if k = "ja" then some (some (jobW "ja" "u/x"))
      else if k = "jb" then some (some (jobW "jb" "u/y"))
      else if k = "jc" then some (some (jobW "jc" "u/z")) else none }

/-! ## The web surface: `internal/web/handler.go`

The handler is embedded over an oracle client (`WebClient`): each client
operation's outcome is a fixed `Except` value, and the embedding records
which operations the handler invokes (`calls`) together with the final
HTTP status and the `err` variable `ServeHTTP` inspects at its end.
Template execution and JSON encoding to the response writer are the I/O
boundary and are taken to succeed; query-string parsing (`strconv.Atoi`)
happens at the boundary too, so the request carries the parsed values. -/

/-- The spec §7 error taxonomy, as the kind of an operation's failure. -/
inductive ErrKind
  | notFound
  | conflict
  | illegalState
  | transientErr
  | malformed
  | permanent
deriving DecidableEq, Repr

structure QueueStatus where
  submittedCount : Nat
deriving DecidableEq, Repr

/-- The oracle for the `WebClient` interface (interfaces.go): what each
operation would return if invoked. -/
structure WebClient where
  queueName : String
  getQueueStatus : Except ErrKind QueueStatus
  findJobOffset : String → Except ErrKind Int
  loadJobs : Int → Int → Bool → Except ErrKind (List JobRecord)
  loadJob : String → Except ErrKind JobRecord
  loadLogArtifact : JobRecord → Except ErrKind Unit
  loadScriptArtifact : JobRecord → Except ErrKind Unit
  loadResultsArtifact : JobRecord → Except ErrKind Unit
  cancelJob : String → Except ErrKind Unit
  plotReport : String → Except ErrKind Unit

/-- A client operation the handler invoked, for the call trace. -/
inductive Op
  | getQueueStatus
  | findJobOffset (q : String)
  | loadJobs (limit offset : Int) (asc : Bool)
  | loadJob (id : String)
  | loadLogArtifact (id : String)
  | loadScriptArtifact (id : String)
  | loadResultsArtifact (id : String)
  | cancelJob (id : String)
  | plotReport (id : String)
deriving DecidableEq, Repr

/-- An incoming request: method, path, and the query parameters the handler
reads (`offset`/`limit` already run through `strconv.Atoi` — `none` when
absent or unparsable — and the raw `search` parameter). -/
structure HttpRequest where
  method : String
  path : String
  queryOffset : Option Int
  queryLimit : Option Int
  querySearch : String
deriving DecidableEq, Repr

/-- Status written, operations invoked, and the `err` value `ServeHTTP`
inspects after dispatch. -/
structure HttpResponse where
  status : Nat
  calls : List Op
  errK : Option ErrKind
deriving DecidableEq, Repr

/-- `[[:xdigit:]]` of the job-resource regexp (handler.go:23-26). -/
def isHexDigit (c : Char) : Bool :=
  decide (('0' ≤ c ∧ c ≤ '9') ∨ ('a' ≤ c ∧ c ≤ 'f') ∨ ('A' ≤ c ∧ c ≤ 'F'))

/-- Consume exactly `n` hex digits. -/
def takeHex : Nat → List Char → Option (List Char)
  | 0, cs => some cs
  | _ + 1, [] => none
  | n + 1, c :: cs => if isHexDigit c then takeHex n cs else none

def expectDash : List Char → Option (List Char)
  | '-' :: cs => some cs
  | _ => none

/-- Consume the 8-4-4-4-12 UUID of the job-resource regexp. -/
def matchUUID (cs : List Char) : Option (List Char) := do
  let cs ← takeHex 8 cs
  let cs ← expectDash cs
  let cs ← takeHex 4 cs
  let cs ← expectDash cs
  let cs ← takeHex 4 cs
  let cs ← expectDash cs
  let cs ← takeHex 4 cs
  let cs ← expectDash cs
  takeHex 12 cs

/-- The `(log|script|results|record|plot|cancel)/?$` tail of the regexp. -/
def resourceOf (cs : List Char) : Option String :=
  let s := String.mk cs
  if s = "log" ∨ s = "log/" then some "log"
  else if s = "script" ∨ s = "script/" then some "script"
  else if s = "results" ∨ s = "results/" then some "results"
  else if s = "record" ∨ s = "record/" then some "record"
  else if s = "plot" ∨ s = "plot/" then some "plot"
  else if s = "cancel" ∨ s = "cancel/" then some "cancel"
  else none

/-- `strings.HasPrefix(path, "/job/")` (handler.go:78). -/
def startsWithJob (path : String) : Bool :=
  match path.toList with
  | '/' :: 'j' :: 'o' :: 'b' :: '/' :: _ => true
  | _ => false

/-- `jobResourceRegexp.FindStringSubmatch` (handler.go:23-26, 79): the
job id (the 36 consumed UUID characters) and the resource name. -/
def matchJobPath (path : String) : Option (String × String) :=
  match path.toList with
  | '/' :: 'j' :: 'o' :: 'b' :: '/' :: rest =>
    match matchUUID rest with
    | none => none
    | some afterUUID =>
      match afterUUID with
      | '/' :: resourceChars =>
        (resourceOf resourceChars).map (fun r => (String.mk (rest.take 36), r))
      | _ => none
  | _ => none

/-- `serveIndex` (handler.go:99-107): queue status into the index
template. -/
def serveIndex (c : WebClient) : Nat × List Op × Option ErrKind :=
  match c.getQueueStatus with
  | .error e => (200, [.getQueueStatus], some e)
  | .ok _ => (200, [.getQueueStatus], none)

/-- The listing tail of `serveQueue` (handler.go:158-195): `LoadJobs(limit,
offset, true)` with the raw (possibly non-positive) limit, then the queue
status; the pagination data feeds the template. -/
def serveQueueList (c : WebClient) (limit offset : Int) (pre : List Op) :
    Nat × List Op × Option ErrKind :=
  match c.loadJobs limit offset true with
  | .error e => (200, pre ++ [.loadJobs limit offset true], some e)
  | .ok _ =>
    match c.getQueueStatus with
    | .error e =>
      (200, pre ++ [.loadJobs limit offset true, .getQueueStatus], some e)
    | .ok _ =>
      (200, pre ++ [.loadJobs limit offset true, .getQueueStatus], none)

/-- Whitespace for `strings.TrimSpace` (restricted to its ASCII cases; the
search queries of interest contain none of the others). -/
def isSpaceChar (c : Char) : Bool :=
  decide (c = ' ' ∨ c = '\t' ∨ c = '\n' ∨ c = '\r')

def dropLeadingSpaces : List Char → List Char
  | [] => []
  | c :: cs => if isSpaceChar c then dropLeadingSpaces cs else c :: cs

/-- `strings.TrimSpace` (handler.go:129). -/
def trimString (s : String) : String :=
  String.mk
    (List.reverse (dropLeadingSpaces (List.reverse (dropLeadingSpaces s.toList))))

/-- `serveQueue` (handler.go:109-196): defaults `limit = 10`, `offset = 0`;
a non-empty trimmed search query goes through `FindJobOffset` and redirects
(302) on a hit, falls through to the listing on a miss. -/
def serveQueue (c : WebClient) (r : HttpRequest) :
    Nat × List Op × Option ErrKind :=
  let limit := r.queryLimit.getD 10
  let offset := r.queryOffset.getD 0
  let search := trimString r.querySearch
  if search ≠ "" then
    match c.findJobOffset search with
    | .error e => (200, [.findJobOffset search], some e)
    | .ok fo =>
      if fo ≥ 0 then (302, [.findJobOffset search], none)
      else serveQueueList c limit offset [.findJobOffset search]
  else serveQueueList c limit offset []

/-- `serveJobResource` (handler.go:239-271): load the record, then serve
the requested resource; any error propagates to `ServeHTTP`. -/
def serveJobResource (c : WebClient) (jobId resource : String) :
    Nat × List Op × Option ErrKind :=
  match c.loadJob jobId with
  | .error e => (200, [.loadJob jobId], some e)
  | .ok rec =>
    let step : Except ErrKind Unit × List Op :=
      if resource = "log" then (c.loadLogArtifact rec, [.loadLogArtifact jobId])
      else if resource = "script" then
        (c.loadScriptArtifact rec, [.loadScriptArtifact jobId])
      else if resource = "results" then
        (c.loadResultsArtifact rec, [.loadResultsArtifact jobId])
      else if resource = "record" then (.ok (), [])
      else if resource = "plot" then (c.plotReport jobId, [.plotReport jobId])
      else if resource = "cancel" then (c.cancelJob jobId, [.cancelJob jobId])
      else (.ok (), [])
    match step.1 with
    | .error e => (200, .loadJob jobId :: step.2, some e)
    | .ok _ => (200, .loadJob jobId :: step.2, none)

/-- The GET dispatch of `ServeHTTP` (handler.go:68-89): index, queue
listing, job resource by regexp, otherwise 400. -/
def routeGET (c : WebClient) (r : HttpRequest) :
    Nat × List Op × Option ErrKind :=
  if r.path = "" ∨ r.path = "/" then serveIndex c
  else if r.path = "/queue" ∨ r.path = "/queue/" then serveQueue c r
  else if startsWithJob r.path then
    match matchJobPath r.path with
    | none => (400, [], none)
    | some (jobId, resource) => serveJobResource c jobId resource
  else (400, [], none)

/-- `ServeHTTP` (handler.go:61-97): reject non-GET with 405 before touching
the client; after dispatch, any non-nil error becomes status 500. -/
def ServeHTTP (c : WebClient) (r : HttpRequest) : HttpResponse :=
  if r.method ≠ "GET" then { status := 405, calls := [], errK := none }
  else
    match routeGET c r with
    | (_, calls, some e) => { status := 500, calls := calls, errK := some e }
    | (st, calls, none) => { status := st, calls := calls, errK := none }

/-! ## Pagination tokens: `calculatePagination` (handler.go:198-237) -/

/-- A pagination token: a page number or the `"..."` collapse marker. -/
inductive PageToken
  | page (n : Int)
  | ellipsis
deriving DecidableEq, Repr

/-- The integers of `for i := lo; i <= hi; i++`. -/
def intRange (lo hi : Int) : List Int :=
  (List.range (hi + 1 - lo).toNat).map (fun (k : Nat) => lo + (k : Int))

/-- The range start (handler.go:204-211): `current - window`, connected to
page 1 (no ellipsis) when that start does not exceed 2. -/
def paginationStart (current window : Int) : Int :=
  if current - window > 2 then current - window else 2

/-- The range end (handler.go:213-219): `current + window`, clamped to
`total - 1`. -/
def paginationEnd (current total window : Int) : Int :=
  if current + window < total - 1 then current + window else total - 1

/-- The middle pages (handler.go:221-225): the clamped range, keeping only
pages strictly between 1 and `total`. -/
def paginationMid (current total window : Int) : List Int :=
  (intRange (paginationStart current window)
      (paginationEnd current total window)).filter
    (fun i => decide (1 < i ∧ i < total))

/-- `calculatePagination(current, total, window)` (handler.go:198-237):
page 1, an optional leading `"..."`, the middle pages, an optional trailing
`"..."`, and the last page whenever `total > 1`. -/
def calculatePagination (current total window : Int) : List PageToken :=
  [PageToken.page 1]
    ++ ((if current - window > 2 then [PageToken.ellipsis] else [])
    ++ ((paginationMid current total window).map PageToken.page
    ++ ((if paginationEnd current total window < total - 1 then
          [PageToken.ellipsis] else [])
    ++ (if 1 < total then [PageToken.page total] else []))))

/-- The page numbers of a token list, ellipses dropped, in token order. -/
def pagesOf (ts : List PageToken) : List Int :=
  ts.filterMap (fun t =>
    match t with
    | .page n => some n
    | .ellipsis => none)

/-! ## Concrete web requests for the error-mapping claims -/

/-- An oracle client whose listing fails with `NotFound` and whose cancel
fails with `IllegalState`. -/
def cexClient : WebClient :=
  { queueName := "q"
    getQueueStatus := .ok ⟨0⟩
    findJobOffset := fun _ => .ok (-1)
    loadJobs := fun _ _ _ => .error .notFound
    loadJob := fun _ => .ok jobA
    loadLogArtifact := fun _ => .ok ()
    loadScriptArtifact := fun _ => .ok ()
    loadResultsArtifact := fun _ => .ok ()
    cancelJob := fun _ => .error .illegalState
    plotReport := fun _ => .ok () }

/-- A plain GET of the queue listing. -/
def reqQueue : HttpRequest :=
  { method := "GET", path := "/queue"
    queryOffset := none, queryLimit := none, querySearch := "" }

/-- A GET of `/job/<uuid>/cancel`. -/
def reqCancel : HttpRequest :=
  { method := "GET", path := "/job/2fb41f25-7e17-4383-9e08-8ab115152db2/cancel"
    queryOffset := none, queryLimit := none, querySearch := "" }

/-! ## Concrete KV snapshots for the stale-reaper claims -/

/-- A `Running` record whose elapsed time at `now = 100` (started 0,
timeout 10) far exceeds its timeout, with an empty reason. -/
def recR : JobRecord :=
  { id := "r"
    parameters :=
      { gitRemote := "u/r", gitRef := "main", testsFilterExpr := "",
        timeout := 10 }
    status := .Running
    created := 0, started := 0, completed := 0
    worker := "w1", reason := "" }

/-- A record already in the terminal state `Succeeded`. -/
def recD : JobRecord :=
  { id := "d"
    parameters :=
      { gitRemote := "u/d", gitRef := "main", testsFilterExpr := "",
        timeout := 10 }
    status := .Succeeded
    created := 0, started := 1, completed := 2
    worker := "w1", reason := "done" }

/-- A KV holding the stale `Running` record and the terminal one. -/
def kvC3 : KV :=
  fun k =>
    if k = "r" then some (recR, 1)
    else if k = "d" then some (recD, 1) else none

/-- The `watchAll` snapshot matching `kvC3`. -/
def snapC3 : List JobRecord := [recR, recD]

/-! ## Theorems and supporting lemmas -/

lemma loadJobsLoop_eq (st : StreamState) (limit offset : Int) :
    ∀ (l : List Nat) (skipped collected : Int),
      0 ≤ skipped → 0 ≤ collected → (0 < limit → collected < limit) →
      loadJobsLoop st limit offset l skipped collected =
        (if 0 < limit then
            List.take (limit - collected).toNat else id)
          ((l.filterMap (deliver st)).drop (offset - skipped).toNat) := by
  intro l
  induction l with
  | nil =>
    intro skipped collected _ _ _
    simp [loadJobsLoop]
    split <;> simp
  | cons i rest ih =>
    intro skipped collected hsk hco hcl
    rw [loadJobsLoop]
    cases hdel : deliver st i with
    | none =>
      rw [ih skipped collected hsk hco hcl]
      simp [List.filterMap_cons, hdel]
    | some job =>
      dsimp only
      by_cases hso : skipped < offset
      · rw [if_pos hso, ih (skipped + 1) collected (by omega) hco hcl]
        have hdrop : (offset - skipped).toNat = (offset - (skipped + 1)).toNat + 1 := by
          omega
        simp only [List.filterMap_cons, hdel, hdrop, List.drop_succ_cons]
      · rw [if_neg hso]
        have hdrop0 : (offset - skipped).toNat = 0 := by omega
        by_cases hbrk : limit > 0 ∧ collected + 1 ≥ limit
        · rw [if_pos hbrk]
          have hlim : (limit - collected).toNat = 1 := by omega
          simp only [List.filterMap_cons, hdel, hdrop0, List.drop_zero,
            if_pos hbrk.1, hlim, List.take_succ_cons, List.take_zero]
        · rw [if_neg hbrk]
          rw [ih skipped (collected + 1) hsk (by omega) (by omega)]
          by_cases hl : 0 < limit
          · have hlim : (limit - collected).toNat = (limit - (collected + 1)).toNat + 1 := by
              omega
            simp only [List.filterMap_cons, hdel, hdrop0, List.drop_zero,
              if_pos hl, hlim, List.take_succ_cons]
          · simp only [List.filterMap_cons, hdel, hdrop0, List.drop_zero,
              if_neg hl, id]

lemma msgCount_eq_zero_delivered (st : StreamState) (asc : Bool)
    (h : msgCount st = 0) : delivered st asc = [] := by
  have hnone : ∀ i ∈ seqsAsc st, st.getMsg i = none := by
    intro i hi
    have := List.countP_eq_zero.mp h i hi
    have h2 : ∀ x, ¬st.getMsg i = some x := by
      simpa [Option.isSome_iff_exists] using this
    cases hg : st.getMsg i with
    | none => rfl
    | some x => exact absurd hg (h2 x)
  have hdel : ∀ i ∈ seqsAsc st, deliver st i = none := by
    intro i hi
    simp [deliver, hnone i hi]
  cases asc with
  | true =>
    simp only [delivered, seqs, if_pos rfl]
    exact List.filterMap_eq_nil_iff.mpr (fun i hi => hdel i hi)
  | false =>
    have : seqs st false = seqsDesc st := by simp [seqs]
    rw [delivered, this]
    refine List.filterMap_eq_nil_iff.mpr (fun i hi => ?_)
    have hi' : i ∈ (seqsAsc st).reverse := (List.mem_filter.mp hi).1
    exact hdel i (List.mem_reverse.mp hi')

/-- The characterization `LoadJobs` has under delivered-count semantics:
drop `offset` delivered records, then keep `limit` of them (a non-positive
limit keeps them all). -/
lemma LoadJobs_eq (st : StreamState) (limit offset : Int) (asc : Bool) :
    LoadJobs st limit offset asc =
      applyLimit limit ((delivered st asc).drop offset.toNat) := by
  by_cases h0 : msgCount st = 0
  · simp [LoadJobs, h0, msgCount_eq_zero_delivered st asc h0, applyLimit]
  · rw [LoadJobs, if_neg h0,
      loadJobsLoop_eq st limit offset (seqs st asc) 0 0 le_rfl le_rfl
        (fun h => h)]
    simp only [applyLimit, delivered, sub_zero]
    split <;> rfl

lemma deliver_none_of_not_indexable (st : StreamState) (i : Nat)
    (h : indexable st i = false) : deliver st i = none := by
  unfold indexable at h
  unfold deliver
  cases hg : st.getMsg i with
  | none => rfl
  | some jobId =>
    rw [hg] at h
    dsimp only at h ⊢
    by_cases he : jobId = ""
    · simp [he]
    · rw [if_neg he] at h
      rw [if_neg he]
      cases hk : st.kvGet jobId with
      | none => rfl
      | some b => rw [hk] at h; simp at h

lemma deliver_of_indexable (st : StreamState) (hm : NoMalformed st)
    (i : Nat) (h : indexable st i = true) : ∃ job, deliver st i = some job := by
  unfold indexable at h
  unfold deliver
  cases hg : st.getMsg i with
  | none => rw [hg] at h; simp at h
  | some jobId =>
    rw [hg] at h
    dsimp only at h ⊢
    by_cases he : jobId = ""
    · rw [if_pos he] at h; simp at h
    · rw [if_neg he] at h
      rw [if_neg he]
      cases hk : st.kvGet jobId with
      | none => rw [hk] at h; simp at h
      | some b =>
        cases b with
        | none => exact absurd hk (hm jobId)
        | some job => exact ⟨job, rfl⟩

lemma countP_indexable_eq (st : StreamState) (hm : NoMalformed st) :
    ∀ l : List Nat,
      l.countP (fun i => indexable st i) = (l.filterMap (deliver st)).length := by
  intro l
  induction l with
  | nil => simp
  | cons i rest ih =>
    rw [List.countP_cons, List.filterMap_cons]
    cases hidx : indexable st i with
    | false =>
      rw [deliver_none_of_not_indexable st i hidx]
      simpa [hidx] using ih
    | true =>
      obtain ⟨job, hjob⟩ := deliver_of_indexable st hm i hidx
      rw [hjob]
      simpa [hidx] using ih

lemma seqOffsets_lookup (st : StreamState) :
    ∀ (l : List Nat) (idx i k : Nat),
      (seqOffsets st l idx).lookup i = some k →
      indexable st i = true ∧
        ∃ l₁ l₂, l = l₁ ++ i :: l₂ ∧
          k = idx + l₁.countP (fun j => indexable st j) := by
  intro l
  induction l with
  | nil => intro idx i k h; simp [seqOffsets] at h
  | cons j rest ih =>
    intro idx i k h
    rw [seqOffsets] at h
    by_cases hj : indexable st j
    · rw [if_pos hj] at h
      rw [List.lookup_cons] at h
      by_cases hij : i = j
      · subst hij
        simp at h
        subst h
        exact ⟨hj, [], rest, rfl, by simp⟩
      · have hbeq : (i == j) = false := by simpa using hij
        simp only [hbeq] at h
        obtain ⟨hidx, l₁, l₂, hsplit, hk⟩ := ih (idx + 1) i k h
        refine ⟨hidx, j :: l₁, l₂, by rw [hsplit]; rfl, ?_⟩
        rw [List.countP_cons, if_pos (by simpa using hj)]
        omega
    · rw [if_neg hj] at h
      obtain ⟨hidx, l₁, l₂, hsplit, hk⟩ := ih idx i k h
      refine ⟨hidx, j :: l₁, l₂, by rw [hsplit]; rfl, ?_⟩
      rw [List.countP_cons, if_neg (by simpa using hj)]
      omega

lemma findLoop_spec (st : StreamState) (query : String)
    (index : List (Nat × Nat)) :
    ∀ l : List Nat,
      findLoop st query index l = -1 ∨
        ∃ i ∈ l, ∃ (k : Nat) (job : JobRecord),
          index.lookup i = some k ∧ findLoop st query index l = (k : Int) ∧
            deliver st i = some job ∧ matchesQuery job query = true := by
  intro l
  induction l with
  | nil => left; rfl
  | cons i rest ih =>
    rw [findLoop]
    cases hlk : index.lookup i with
    | none =>
      rcases ih with h | ⟨i', hmem, k, job, h1, h2, h3, h4⟩
      · left; exact h
      · right; exact ⟨i', List.mem_cons_of_mem i hmem, k, job, h1, h2, h3, h4⟩
    | some off =>
      cases hdel : deliver st i with
      | none =>
        rcases ih with h | ⟨i', hmem, k, job, h1, h2, h3, h4⟩
        · left; exact h
        · right; exact ⟨i', List.mem_cons_of_mem i hmem, k, job, h1, h2, h3, h4⟩
      | some job =>
        dsimp only
        by_cases hq : matchesQuery job query = true
        · right
          exact ⟨i, List.mem_cons_self i rest, off, job, hlk,
            by rw [if_pos hq], hdel, hq⟩
        · rw [if_neg hq]
          rcases ih with h | ⟨i', hmem, k, job', h1, h2, h3, h4⟩
          · left; exact h
          · right; exact ⟨i', List.mem_cons_of_mem i hmem, k, job', h1, h2, h3, h4⟩

lemma findLoop_no_match (st : StreamState) (query : String)
    (index : List (Nat × Nat)) :
    ∀ l : List Nat,
      (∀ i ∈ l, ∀ job, deliver st i = some job →
        matchesQuery job query = false) →
      findLoop st query index l = -1 := by
  intro l
  induction l with
  | nil => intro _; rfl
  | cons i rest ih =>
    intro h
    rw [findLoop]
    have hrest := ih (fun j hj job hjob => h j (List.mem_cons_of_mem i hj) job hjob)
    cases index.lookup i with
    | none => exact hrest
    | some off =>
      cases hdel : deliver st i with
      | none => exact hrest
      | some job =>
        dsimp only
        rw [if_neg (by simp [h i (List.mem_cons_self i rest) job hdel])]
        exact hrest

/-- C1 amended: when no key of the KV holds malformed record bytes, a
non-negative `FindJobOffset(q)` is a delivered offset: `LoadJobs(1, o,
asc=true)` returns exactly one record and it matches `q` case-insensitively
in its id, git ref, git remote or tests filter; and `FindJobOffset` returns
`-1` whenever no delivered record matches `q` (this half needs no
assumption).  Without the no-malformed assumption the first half fails: the
first scan's index counts entries whose bytes do not decode, `LoadJobs`
does not. -/
theorem findJobOffset_aligned (st : StreamState) (q : String) :
    (NoMalformed st →
      ∀ o : Int, FindJobOffset st q = o → 0 ≤ o →
        ∃ job, LoadJobs st 1 o true = [job] ∧ matchesQuery job q = true) ∧
    ((∀ job ∈ delivered st true, matchesQuery job q = false) →
      FindJobOffset st q = -1) := by
  constructor
  · intro hm o ho hnonneg
    rw [FindJobOffset] at ho
    by_cases hq : q = ""
    · rw [if_pos hq] at ho; omega
    · rw [if_neg hq] at ho
      by_cases hc : msgCount st = 0
      · rw [if_pos hc] at ho; omega
      · rw [if_neg hc] at ho
        rcases findLoop_spec st q (seqOffsets st (seqsAsc st) 0)
            (seqsAsc st).reverse with h | ⟨i, _, k, job, hlk, hval, hdel, hmatch⟩
        · rw [ho] at h; omega
        · rw [ho] at hval
          obtain ⟨_, l₁, l₂, hsplit, hk⟩ := seqOffsets_lookup st (seqsAsc st) 0 i k hlk
          rw [Nat.zero_add] at hk
          refine ⟨job, ?_, hmatch⟩
          rw [LoadJobs_eq]
          have hdeliv : delivered st true =
              l₁.filterMap (deliver st) ++ job :: l₂.filterMap (deliver st) := by
            rw [delivered, seqs, if_pos rfl, hsplit, List.filterMap_append,
              List.filterMap_cons, hdel]
          have htonat : o.toNat = (l₁.filterMap (deliver st)).length := by
            rw [hval, Int.toNat_natCast, hk, countP_indexable_eq st hm]
          rw [hdeliv, htonat, List.drop_left]
          rfl
  · intro hnone
    rw [FindJobOffset]
    by_cases hq : q = ""
    · rw [if_pos hq]
    · rw [if_neg hq]
      by_cases hc : msgCount st = 0
      · rw [if_pos hc]
      · rw [if_neg hc]
        refine findLoop_no_match st q _ _ (fun i hi job hjob => ?_)
        refine hnone job ?_
        rw [delivered, seqs, if_pos rfl]
        exact List.mem_filterMap.mpr ⟨i, List.mem_reverse.mp hi, hjob⟩

lemma loadJobsFilteredLoop_cap (st : StreamState) (statuses : List JobStatus)
    (offset fetchLimit maxScan : Int) (hpos : 0 < maxScan) :
    ∀ (l : List Nat) (skipped collected scanned : Int),
      loadJobsFilteredLoop st statuses offset fetchLimit maxScan l
          skipped collected scanned =
        loadJobsFilteredLoop st statuses offset fetchLimit 0
          (l.take (maxScan - scanned).toNat) skipped collected scanned := by
  intro l
  induction l with
  | nil => intro skipped collected scanned; simp [loadJobsFilteredLoop]
  | cons i rest ih =>
    intro skipped collected scanned
    by_cases hstop : scanned ≥ maxScan
    · rw [loadJobsFilteredLoop, if_pos ⟨hpos, hstop⟩]
      have h0 : (maxScan - scanned).toNat = 0 := by omega
      rw [h0, List.take_zero]
      rfl
    · have htake : (i :: rest).take (maxScan - scanned).toNat =
          i :: rest.take (maxScan - (scanned + 1)).toNat := by
        have h1 : (maxScan - scanned).toNat =
            (maxScan - (scanned + 1)).toNat + 1 := by omega
        rw [h1, List.take_succ_cons]
      rw [loadJobsFilteredLoop, if_neg (by omega), htake, loadJobsFilteredLoop,
        if_neg (by omega)]
      cases deliver st i with
      | none => exact ih skipped collected (scanned + 1)
      | some job =>
        dsimp only
        by_cases hf : statuses ≠ [] ∧ job.status ∉ statuses
        · rw [if_pos hf, if_pos hf]
          exact ih skipped collected (scanned + 1)
        · rw [if_neg hf, if_neg hf]
          by_cases hsk : skipped < offset
          · rw [if_pos hsk, if_pos hsk]
            exact ih (skipped + 1) collected (scanned + 1)
          · rw [if_neg hsk, if_neg hsk]
            by_cases hbrk : fetchLimit > 0 ∧ collected + 1 ≥ fetchLimit
            · rw [if_pos hbrk, if_pos hbrk]
            · rw [if_neg hbrk, if_neg hbrk]
              rw [ih skipped (collected + 1) (scanned + 1)]

lemma loadJobsFilteredLoop_mem (st : StreamState) (statuses : List JobStatus)
    (offset fetchLimit maxScan : Int) :
    ∀ (l : List Nat) (skipped collected scanned : Int),
      ∀ job ∈ loadJobsFilteredLoop st statuses offset fetchLimit maxScan l
          skipped collected scanned,
        ∃ i ∈ l, deliver st i = some job := by
  intro l
  induction l with
  | nil => intro skipped collected scanned job h; simp [loadJobsFilteredLoop] at h
  | cons i rest ih =>
    intro skipped collected scanned job h
    rw [loadJobsFilteredLoop] at h
    by_cases hstop : maxScan > 0 ∧ scanned ≥ maxScan
    · rw [if_pos hstop] at h; simp at h
    · rw [if_neg hstop] at h
      have step : ∀ sk co sc,
          job ∈ loadJobsFilteredLoop st statuses offset fetchLimit maxScan rest
            sk co sc → ∃ j ∈ i :: rest, deliver st j = some job := by
        intro sk co sc hmem
        obtain ⟨j, hj, hdel⟩ := ih sk co sc job hmem
        exact ⟨j, List.mem_cons_of_mem i hj, hdel⟩
      cases hdel : deliver st i with
      | none =>
        rw [hdel] at h
        exact step _ _ _ h
      | some job' =>
        rw [hdel] at h
        dsimp only at h
        by_cases hf : statuses ≠ [] ∧ job'.status ∉ statuses
        · rw [if_pos hf] at h; exact step _ _ _ h
        · rw [if_neg hf] at h
          by_cases hsk : skipped < offset
          · rw [if_pos hsk] at h; exact step _ _ _ h
          · rw [if_neg hsk] at h
            by_cases hbrk : fetchLimit > 0 ∧ collected + 1 ≥ fetchLimit
            · rw [if_pos hbrk] at h
              simp at h
              exact ⟨i, List.mem_cons_self i rest, by rw [hdel, h]⟩
            · rw [if_neg hbrk] at h
              rcases List.mem_cons.mp h with h' | h'
              · exact ⟨i, List.mem_cons_self i rest, by rw [hdel, h']⟩
              · exact step _ _ _ h'

lemma trimJobs_mem (limit offset : Int) (js : List JobRecord) :
    ∀ job ∈ (trimJobs limit offset js).1, job ∈ js := by
  intro job h
  rw [trimJobs] at h
  dsimp only at h
  split at h
  · exact List.mem_of_mem_take h
  · exact h

/-- C9: when the status filter is non-empty and contains only `Submitted`
and `Running`, `LoadJobsFiltered` equals the same listing restricted to the
first 50 sequences of the walk — so a matching job past the first 50
scanned entries is never returned (third conjunct) — while for any other
status set (the empty one included) it equals the listing over the whole
walk, with no scan cap. -/
theorem loadJobsFiltered_scan_cap (st : StreamState) (limit offset : Int)
    (asc : Bool) (statuses : List JobStatus) :
    ((statuses ≠ [] ∧ allTransient statuses = true) →
      LoadJobsFiltered st limit offset asc statuses =
        loadJobsFilteredOn st limit offset statuses ((seqs st asc).take 50)) ∧
    (¬(statuses ≠ [] ∧ allTransient statuses = true) →
      LoadJobsFiltered st limit offset asc statuses =
        loadJobsFilteredOn st limit offset statuses (seqs st asc)) ∧
    ((statuses ≠ [] ∧ allTransient statuses = true) →
      ∀ job ∈ (LoadJobsFiltered st limit offset asc statuses).1,
        ∃ i ∈ (seqs st asc).take 50, deliver st i = some job) := by
  have hcap : (statuses ≠ [] ∧ allTransient statuses = true) →
      LoadJobsFiltered st limit offset asc statuses =
        loadJobsFilteredOn st limit offset statuses ((seqs st asc).take 50) := by
    intro hT
    rw [LoadJobsFiltered, loadJobsFilteredOn]
    by_cases h0 : msgCount st = 0
    · rw [if_pos h0, if_pos h0]
    · rw [if_neg h0, if_neg h0, if_pos hT,
        loadJobsFilteredLoop_cap st statuses offset (fetchLimitOf limit) 50
          (by omega) (seqs st asc) 0 0 0]
      have h50 : ((50 : Int) - 0).toNat = 50 := rfl
      rw [h50]
  refine ⟨hcap, ?_, ?_⟩
  · intro hT
    rw [LoadJobsFiltered, loadJobsFilteredOn]
    by_cases h0 : msgCount st = 0
    · rw [if_pos h0, if_pos h0]
    · rw [if_neg h0, if_neg h0, if_neg hT]
  · intro hT job hmem
    rw [hcap hT, loadJobsFilteredOn] at hmem
    by_cases h0 : msgCount st = 0
    · rw [if_pos h0] at hmem; simp at hmem
    · rw [if_neg h0] at hmem
      exact loadJobsFilteredLoop_mem st statuses offset (fetchLimitOf limit) 0
        ((seqs st asc).take 50) 0 0 0 job
        (trimJobs_mem limit offset _ job hmem)

lemma failStale_invariant (now : Int) :
    ∀ (l : List String) (kv : KV), WellFormedKV kv →
      (failStaleIds now l kv).Nodup ∧
      (∀ id ∈ failStaleIds now l kv, id ∈ l) ∧
      (∀ id ∈ failStaleIds now l kv,
        ∃ rec rev, kv id = some (rec, rev) ∧ rec.status = .Running ∧
          (failStaleLoop now l kv).2 id =
            some ({rec with status := .Failed, completed := now}, rev + 1)) ∧
      (∀ id, id ∉ failStaleIds now l kv → (failStaleLoop now l kv).2 id = kv id) ∧
      (failStaleLoop now l kv).1 = (failStaleIds now l kv).length := by
  intro l
  induction l with
  | nil => intro kv _; refine ⟨List.nodup_nil, ?_, ?_, ?_, rfl⟩ <;> simp [failStaleIds, failStaleLoop]
  | cons id₀ rest ih =>
    intro kv hWF
    have hskip : (failStaleIds now rest kv).Nodup ∧
        (∀ id ∈ failStaleIds now rest kv, id ∈ id₀ :: rest) ∧
        (∀ id ∈ failStaleIds now rest kv,
          ∃ rec rev, kv id = some (rec, rev) ∧ rec.status = .Running ∧
            (failStaleLoop now rest kv).2 id =
              some ({rec with status := .Failed, completed := now}, rev + 1)) ∧
        (∀ id, id ∉ failStaleIds now rest kv →
          (failStaleLoop now rest kv).2 id = kv id) ∧
        (failStaleLoop now rest kv).1 = (failStaleIds now rest kv).length := by
      obtain ⟨h1, h2, h3, h4, h5⟩ := ih kv hWF
      exact ⟨h1, fun id h => List.mem_cons_of_mem id₀ (h2 id h), h3, h4, h5⟩
    rw [failStaleLoop, failStaleIds]
    cases hload : LoadJob kv id₀ with
    | none => exact hskip
    | some jr =>
      obtain ⟨job, revision⟩ := jr
      dsimp only
      by_cases hrun : job.status ≠ JobStatus.Running
      · rw [if_pos hrun, if_pos hrun]
        exact hskip
      · rw [if_neg hrun, if_neg hrun]
        push_neg at hrun
        have hid : job.id = id₀ := hWF id₀ job revision hload
        have hupd : UpdateJob kv (SetFinalStatus job .Failed now) revision =
            some (kvPut kv id₀ (SetFinalStatus job .Failed now) (revision + 1)) := by
          have hload' : kv id₀ = some (job, revision) := hload
          rw [UpdateJob]
          have : (SetFinalStatus job .Failed now).id = id₀ := hid
          rw [this, hload']
          dsimp only
          rw [if_pos rfl]
        rw [hupd]
        dsimp only
        set kv' := kvPut kv id₀ (SetFinalStatus job .Failed now) (revision + 1) with hkv'
        have hWF' : WellFormedKV kv' := by
          intro i rec rev h
          rw [hkv', kvPut] at h
          by_cases hi : i = id₀
          · rw [if_pos hi] at h
            have : rec = SetFinalStatus job .Failed now := by
              injection h with h'
              exact (congrArg Prod.fst h').symm
            rw [this, hi]
            exact hid
          · rw [if_neg hi] at h
            exact hWF i rec rev h
        obtain ⟨hnd, hsub, hmain, hun, hcnt⟩ := ih kv' hWF'
        have hkvid₀ : kv' id₀ =
            some ({job with status := .Failed, completed := now}, revision + 1) := by
          rw [hkv', kvPut, if_pos rfl]
          rfl
        have hnotmem : id₀ ∉ failStaleIds now rest kv' := by
          intro hmem
          obtain ⟨rec, rev, hrec, hrecrun, _⟩ := hmain id₀ hmem
          rw [hkvid₀] at hrec
          injection hrec with h'
          have : rec = {job with status := .Failed, completed := now} :=
            (congrArg Prod.fst h').symm
          rw [this] at hrecrun
          exact absurd hrecrun (by simp)
        refine ⟨List.nodup_cons.mpr ⟨hnotmem, hnd⟩, ?_, ?_, ?_, ?_⟩
        · intro id hmem
          rcases List.mem_cons.mp hmem with h | h
          · rw [h]; exact List.mem_cons_self id₀ rest
          · exact List.mem_cons_of_mem id₀ (hsub id h)
        · intro id hmem
          rcases List.mem_cons.mp hmem with h | h
          · subst h
            refine ⟨job, revision, hload, hrun, ?_⟩
            rw [hun id hnotmem, hkvid₀]
          · obtain ⟨rec, rev, hrec, hrecrun, hres⟩ := hmain id h
            have hne : id ≠ id₀ := fun he => hnotmem (he ▸ h)
            refine ⟨rec, rev, ?_, hrecrun, hres⟩
            rw [hkv', kvPut, if_neg hne] at hrec
            exact hrec
        · intro id hmem
          have hne : id ≠ id₀ := fun he => hmem (he ▸ List.mem_cons_self id₀ _)
          have hnm : id ∉ failStaleIds now rest kv' :=
            fun hin => hmem (List.mem_cons_of_mem id₀ hin)
          rw [hun id hnm, hkv', kvPut, if_neg hne]
        · rw [List.length_cons]
          omega

/-- C3: over any `watchAll` snapshot and KV, `FailStaleJobs` never modifies
a record whose current status is not `Running` (terminal records included);
every key it does modify is a snapshot candidate (`Running` with elapsed
time beyond its timeout) that was still `Running` in the KV and is
transitioned to `Failed` under its observed revision (a candidate found in
another state on re-load is skipped without error); and the returned count
is exactly the number of records whose update succeeded. -/
theorem failStaleJobs_spec (snapshot : List JobRecord) (kv : KV) (now : Int)
    (hWF : WellFormedKV kv) :
    (∀ id rec rev, kv id = some (rec, rev) → rec.status ≠ .Running →
      (FailStaleJobs snapshot kv now).2 id = kv id) ∧
    (∀ id, (FailStaleJobs snapshot kv now).2 id ≠ kv id →
      id ∈ staleCandidates snapshot now ∧
      ∃ rec rev, kv id = some (rec, rev) ∧ rec.status = .Running ∧
        (FailStaleJobs snapshot kv now).2 id =
          some ({rec with status := .Failed, completed := now}, rev + 1)) ∧
    (∃ L : List String, L.Nodup ∧
      (∀ id, id ∈ L ↔ (FailStaleJobs snapshot kv now).2 id ≠ kv id) ∧
      (FailStaleJobs snapshot kv now).1 = L.length) := by
  obtain ⟨hnd, hsub, hmain, hun, hcnt⟩ :=
    failStale_invariant now (staleCandidates snapshot now) kv hWF
  set ids := failStaleIds now (staleCandidates snapshot now) kv with hids
  have hchanged : ∀ id, id ∈ ids ↔ (FailStaleJobs snapshot kv now).2 id ≠ kv id := by
    intro id
    constructor
    · intro hmem
      obtain ⟨rec, rev, hrec, _, hres⟩ := hmain id hmem
      rw [FailStaleJobs, hres, hrec]
      intro h
      injection h with h'
      have : rev + 1 = rev := congrArg Prod.snd h'
      omega
    · intro hne
      by_contra hmem
      exact hne (hun id hmem)
  refine ⟨?_, ?_, ids, hnd, hchanged, hcnt⟩
  · intro id rec rev hrec hstat
    by_cases hmem : id ∈ ids
    · obtain ⟨rec', rev', hrec', hrun, _⟩ := hmain id hmem
      rw [hrec] at hrec'
      injection hrec' with h'
      have : rec = rec' := congrArg Prod.fst h'
      rw [← this] at hrun
      exact absurd hrun hstat
    · exact hun id hmem
  · intro id hne
    have hmem : id ∈ ids := (hchanged id).mpr hne
    exact ⟨hsub id hmem, hmain id hmem⟩

/-- C6 amended: every record `FailStaleJobs` transitions ends in `Failed`
with `completed = now` — but every other field, the `reason` included, is
carried over unchanged: `SetFinalStatus` takes no reason, so nothing writes
`"stale: exceeded timeout"` into the record. -/
theorem failStale_reason_unchanged (snapshot : List JobRecord) (kv : KV)
    (now : Int) (hWF : WellFormedKV kv) :
    ∀ id, (FailStaleJobs snapshot kv now).2 id ≠ kv id →
      ∃ rec rev, kv id = some (rec, rev) ∧
        (FailStaleJobs snapshot kv now).2 id =
          some ({rec with status := .Failed, completed := now}, rev + 1) ∧
        ({rec with status := .Failed, completed := now} : JobRecord).reason =
          rec.reason := by
  obtain ⟨hnd, hsub, hmain, hun, hcnt⟩ :=
    failStale_invariant now (staleCandidates snapshot now) kv hWF
  intro id hne
  have hmem : id ∈ failStaleIds now (staleCandidates snapshot now) kv := by
    by_contra hmem
    exact hne (hun id hmem)
  obtain ⟨rec, rev, hrec, _, hres⟩ := hmain id hmem
  exact ⟨rec, rev, hrec, hres, rfl⟩

/-- C4: `CancelJob(id)` on a record whose status is not `Submitted` returns
the `IllegalState` error and leaves the KV untouched; on a `Submitted`
record it succeeds, writing `status = Cancelled`, `completed = now` back at
the revision observed at load (bumped by one), and touches no other key. -/
theorem cancelJob_spec (kv : KV) (jobId : String) (now : Int) :
    (∀ rec rev, kv jobId = some (rec, rev) → rec.status ≠ .Submitted →
      CancelJob kv jobId now = (some (.illegalState rec.status), kv)) ∧
    (∀ rec rev, kv jobId = some (rec, rev) → rec.id = jobId →
      rec.status = .Submitted →
      (CancelJob kv jobId now).1 = none ∧
      (CancelJob kv jobId now).2 jobId =
        some ({rec with status := .Cancelled, completed := now}, rev + 1) ∧
      (∀ k, k ≠ jobId → (CancelJob kv jobId now).2 k = kv k)) := by
  constructor
  · intro rec rev hrec hstat
    rw [CancelJob, LoadJob, hrec]
    dsimp only
    rw [if_pos hstat]
  · intro rec rev hrec hid hstat
    have hupd : UpdateJob kv (SetFinalStatus rec .Cancelled now) rev =
        some (kvPut kv jobId (SetFinalStatus rec .Cancelled now) (rev + 1)) := by
      rw [UpdateJob]
      have h1 : (SetFinalStatus rec .Cancelled now).id = jobId := hid
      rw [h1, hrec]
      dsimp only
      rw [if_pos rfl]
    have hcancel : CancelJob kv jobId now =
        (none, kvPut kv jobId (SetFinalStatus rec .Cancelled now) (rev + 1)) := by
      rw [CancelJob, LoadJob, hrec]
      dsimp only
      rw [if_neg (by simp [hstat]), hupd]
    refine ⟨by rw [hcancel], ?_, ?_⟩
    · rw [hcancel]
      dsimp only [kvPut]
      rw [if_pos rfl]
      rfl
    · intro k hk
      rw [hcancel]
      dsimp only [kvPut]
      rw [if_neg hk]

lemma noMalformed_stW : NoMalformed stW := by
  intro k h
  by_cases h1 : k = "ja" <;> by_cases h2 : k = "jb" <;> by_cases h3 : k = "jc" <;>
    simp [stW, h1, h2, h3] at h

/-- C1 counterexample: on `stC1` the search for "y" returns offset 1 (its
index counted the malformed entry), yet `LoadJobs(1, 1, asc=true)` returns
no record at all — not one matching record as the claim states. -/
theorem findJobOffset_misaligned :
    FindJobOffset stC1 "y" = 1 ∧ (0 : Int) ≤ 1 ∧ LoadJobs stC1 1 1 true = [] := by
  refine ⟨by decide, by decide, by decide⟩

/-- C1 witness: on the clean stream `stW` the offset returned for "y" is a
delivered offset and `LoadJobs(1, 1, asc=true)` yields the matching job. -/
theorem findJobOffset_aligned_witness :
    ∃ job, LoadJobs stW 1 1 true = [job] ∧ matchesQuery job "y" = true :=
  (findJobOffset_aligned stW "y").1 noMalformed_stW 1 (by decide) (by decide)

/-- C2: `LoadJobs(limit, offset, asc)` counts `offset` and `limit` only over
delivered records, in both directions: the result is the walk's delivered
list with `offset` delivered records dropped and (for a positive limit)
`limit` delivered records kept, so an entry skipped for any reason (purged
message, missing header, KV miss, malformed record bytes) never consumes
offset budget and never counts toward the limit. -/
theorem loadJobs_delivered_count (st : StreamState) (limit offset : Int)
    (asc : Bool) :
    LoadJobs st limit offset asc =
      applyLimit limit ((delivered st asc).drop offset.toNat) :=
  LoadJobs_eq st limit offset asc

/-- C5 counterexample: on a stream with one delivered record,
`LoadJobs(0, 0, true)` returns that record, not the empty list — a
non-positive limit disables the limit check instead of limiting to zero. -/
theorem loadJobs_zero_zero_not_empty :
    LoadJobs st1 0 0 true = [jobA] ∧ LoadJobs st1 0 0 true ≠ [] := by
  constructor
  · decide
  · decide

/-- C5 amended: `LoadJobs(0, 0, true)` returns every delivered record of the
stream (`limit = 0` means "no limit" throughout `queue.go`); in particular it
is empty exactly when the stream delivers nothing, not for every stream. -/
theorem loadJobs_zero_limit_returns_all (st : StreamState) :
    LoadJobs st 0 0 true = delivered st true := by
  have h := LoadJobs_eq st 0 0 true
  simpa [applyLimit] using h

lemma serveIndex_status (c : WebClient) : (serveIndex c).1 = 200 := by
  unfold serveIndex
  split <;> rfl

lemma serveQueueList_status (c : WebClient) (limit offset : Int)
    (pre : List Op) : (serveQueueList c limit offset pre).1 = 200 := by
  unfold serveQueueList
  repeat' split
  all_goals rfl

lemma serveQueue_status (c : WebClient) (r : HttpRequest) :
    (serveQueue c r).1 = 200 ∨ (serveQueue c r).1 = 302 := by
  unfold serveQueue
  dsimp only
  split
  · split
    · left; rfl
    · split
      · right; rfl
      · left; exact serveQueueList_status c _ _ _
  · left; exact serveQueueList_status c _ _ _

lemma serveJobResource_status (c : WebClient) (jobId resource : String) :
    (serveJobResource c jobId resource).1 = 200 := by
  unfold serveJobResource
  split
  · rfl
  · dsimp only
    repeat' split
    all_goals rfl

lemma routeGET_status (c : WebClient) (r : HttpRequest) :
    (routeGET c r).1 = 200 ∨ (routeGET c r).1 = 302 ∨ (routeGET c r).1 = 400 := by
  unfold routeGET
  split
  · left; exact serveIndex_status c
  · split
    · rcases serveQueue_status c r with h | h
      · left; exact h
      · right; left; exact h
    · split
      · split
        · right; right; rfl
        · left; exact serveJobResource_status c _ _
      · right; right; rfl

/-- C7 amended: for every request the web surface answers with one of 200,
302, 400, 405 or 500; whenever the dispatched operation fails — with
`NotFound`, `IllegalState` or any other kind — the status is 500.  It never
answers 404 or 409: the error-kind mapping of the claim does not exist in
the handler. -/
theorem serveHTTP_error_mapping (c : WebClient) (r : HttpRequest) :
    ((ServeHTTP c r).status = 200 ∨ (ServeHTTP c r).status = 302 ∨
      (ServeHTTP c r).status = 400 ∨ (ServeHTTP c r).status = 405 ∨
      (ServeHTTP c r).status = 500) ∧
    (∀ e, (ServeHTTP c r).errK = some e → (ServeHTTP c r).status = 500) ∧
    (ServeHTTP c r).status ≠ 404 ∧ (ServeHTTP c r).status ≠ 409 := by
  have hmain : (ServeHTTP c r).status = 200 ∨ (ServeHTTP c r).status = 302 ∨
      (ServeHTTP c r).status = 400 ∨ (ServeHTTP c r).status = 405 ∨
      (ServeHTTP c r).status = 500 := by
    rw [ServeHTTP]
    by_cases hm : r.method ≠ "GET"
    · rw [if_pos hm]
      tauto
    · rw [if_neg hm]
      rcases hroute : routeGET c r with ⟨st, calls, errK⟩
      have hst := routeGET_status c r
      rw [hroute] at hst
      cases errK with
      | some e => tauto
      | none => dsimp only; dsimp only at hst; tauto
  have herr : ∀ e, (ServeHTTP c r).errK = some e → (ServeHTTP c r).status = 500 := by
    intro e he
    rw [ServeHTTP] at he ⊢
    by_cases hm : r.method ≠ "GET"
    · rw [if_pos hm] at he
      exact absurd he (by simp)
    · rw [if_neg hm] at he ⊢
      rcases hroute : routeGET c r with ⟨st, calls, errK⟩
      rw [hroute] at he
      cases errK with
      | some e' => rfl
      | none => exact Option.noConfusion he
  refine ⟨hmain, herr, ?_, ?_⟩ <;> rcases hmain with h | h | h | h | h <;> omega

/-- C10: a request whose method is not GET is answered 405 with no client
operation invoked; consequently every operation the handler can trigger —
`CancelJob` included — is reachable only via GET. -/
theorem serveHTTP_get_only (c : WebClient) (r : HttpRequest) :
    (r.method ≠ "GET" → (ServeHTTP c r).status = 405 ∧ (ServeHTTP c r).calls = []) ∧
    (∀ id, Op.cancelJob id ∈ (ServeHTTP c r).calls → r.method = "GET") := by
  constructor
  · intro hm
    rw [ServeHTTP, if_pos hm]
    exact ⟨rfl, rfl⟩
  · intro id hmem
    by_contra hm
    rw [ServeHTTP, if_pos hm] at hmem
    simp at hmem

lemma mem_intRange {lo hi p : Int} : p ∈ intRange lo hi ↔ lo ≤ p ∧ p ≤ hi := by
  rw [intRange]
  constructor
  · intro h
    obtain ⟨k, hk, he⟩ := List.mem_map.mp h
    have hk2 := List.mem_range.mp hk
    omega
  · intro ⟨h1, h2⟩
    exact List.mem_map.mpr ⟨(p - lo).toNat, List.mem_range.mpr (by omega), by omega⟩

lemma pairwise_intRange (lo hi : Int) : (intRange lo hi).Pairwise (· < ·) := by
  rw [intRange, List.pairwise_map]
  refine (List.pairwise_lt_range _).imp ?_
  intro a b h
  omega

lemma pagesOf_append (l1 l2 : List PageToken) :
    pagesOf (l1 ++ l2) = pagesOf l1 ++ pagesOf l2 :=
  List.filterMap_append l1 l2 _

lemma pagesOf_map_page (l : List Int) : pagesOf (l.map PageToken.page) = l := by
  induction l with
  | nil => rfl
  | cons a t ih =>
    rw [List.map_cons]
    show a :: pagesOf (t.map PageToken.page) = a :: t
    rw [ih]

lemma pagesOf_calculatePagination (c t w : Int) :
    pagesOf (calculatePagination c t w) =
      1 :: (paginationMid c t w ++ if 1 < t then [t] else []) := by
  rw [calculatePagination, pagesOf_append, pagesOf_append, pagesOf_append,
    pagesOf_append, pagesOf_map_page]
  have h1 : pagesOf (if c - w > 2 then [PageToken.ellipsis] else []) = [] := by
    split <;> rfl
  have h2 : pagesOf
      (if paginationEnd c t w < t - 1 then [PageToken.ellipsis] else []) = [] := by
    split <;> rfl
  have h3 : pagesOf (if 1 < t then [PageToken.page t] else []) =
      if 1 < t then [t] else [] := by
    split <;> rfl
  rw [h1, h2, h3]
  rfl

/-- C8: the token list starts with page 1; whenever `total > 1` it ends
with the total page; a listed page other than 1 and `total` always lies
within `window` of the current page (anything farther is collapsed behind
an `"..."` token instead of listed); every page strictly between 1 and
`total` within the window is listed; and the listed page numbers are
strictly ascending. -/
theorem calculatePagination_spec (current total window : Int) :
    (calculatePagination current total window).head? = some (.page 1) ∧
    (1 < total →
      (calculatePagination current total window).getLast? = some (.page total)) ∧
    (∀ p, PageToken.page p ∈ calculatePagination current total window →
      p = 1 ∨ p = total ∨ (current - window ≤ p ∧ p ≤ current + window)) ∧
    (∀ p, 1 < p → p < total → current - window ≤ p → p ≤ current + window →
      PageToken.page p ∈ calculatePagination current total window) ∧
    List.Sorted (· < ·) (pagesOf (calculatePagination current total window)) := by
  have hmid_bounds : ∀ p ∈ paginationMid current total window,
      1 < p ∧ p < total ∧ current - window ≤ p ∧ p ≤ current + window := by
    intro p hp
    obtain ⟨hrange, hdec⟩ := List.mem_filter.mp hp
    have hpt : 1 < p ∧ p < total := of_decide_eq_true hdec
    obtain ⟨hlo, hhi⟩ := mem_intRange.mp hrange
    have h1 : current - window ≤ p := by
      rw [paginationStart] at hlo
      split at hlo <;> omega
    have h2 : p ≤ current + window := by
      rw [paginationEnd] at hhi
      split at hhi <;> omega
    exact ⟨hpt.1, hpt.2, h1, h2⟩
  refine ⟨?_, ?_, ?_, ?_, ?_⟩
  · rw [calculatePagination, List.singleton_append]
    rfl
  · intro ht
    rw [calculatePagination, if_pos ht]
    simp only [← List.append_assoc]
    exact List.getLast?_concat _
  · intro p hp
    rw [calculatePagination] at hp
    rcases List.mem_append.mp hp with h | hp
    · left
      exact PageToken.page.inj (List.mem_singleton.mp h)
    rcases List.mem_append.mp hp with h | hp
    · split at h
      · exact absurd (List.mem_singleton.mp h) (by simp)
      · exact absurd h (List.not_mem_nil _)
    rcases List.mem_append.mp hp with h | hp
    · obtain ⟨q, hq, he⟩ := List.mem_map.mp h
      injection he with he
      subst he
      right; right
      exact ⟨(hmid_bounds q hq).2.2.1, (hmid_bounds q hq).2.2.2⟩
    rcases List.mem_append.mp hp with h | h
    · split at h
      · exact absurd (List.mem_singleton.mp h) (by simp)
      · exact absurd h (List.not_mem_nil _)
    · split at h
      · right; left
        exact PageToken.page.inj (List.mem_singleton.mp h)
      · exact absurd h (List.not_mem_nil _)
  · intro p h1 h2 h3 h4
    have hp : p ∈ paginationMid current total window := by
      refine List.mem_filter.mpr ⟨mem_intRange.mpr ⟨?_, ?_⟩, decide_eq_true ⟨h1, h2⟩⟩
      · rw [paginationStart]
        split <;> omega
      · rw [paginationEnd]
        split <;> omega
    rw [calculatePagination]
    refine List.mem_append.mpr (Or.inr (List.mem_append.mpr (Or.inr
      (List.mem_append.mpr (Or.inl ?_)))))
    exact List.mem_map_of_mem PageToken.page hp
  · rw [pagesOf_calculatePagination, List.sorted_cons]
    constructor
    · intro b hb
      rcases List.mem_append.mp hb with h | h
      · exact (hmid_bounds b h).1
      · split at h
        · rw [List.mem_singleton.mp h]
          omega
        · exact absurd h (List.not_mem_nil _)
    · refine List.pairwise_append.mpr ⟨?_, ?_, ?_⟩
      · exact List.Pairwise.filter _ (pairwise_intRange _ _)
      · split <;> simp
      · intro x hx y hy
        split at hy
        · rw [List.mem_singleton.mp hy]
          exact (hmid_bounds x hx).2.1
        · exact absurd hy (List.not_mem_nil _)

/-- C7 counterexample: a `NotFound` failure of the queue listing is
answered 500, not 404, and an `IllegalState` failure of the cancel
operation is answered 500, not 409. -/
theorem serveHTTP_no_404_409 :
    (ServeHTTP cexClient reqQueue).errK = some .notFound ∧
    (ServeHTTP cexClient reqQueue).status = 500 ∧
    (ServeHTTP cexClient reqQueue).status ≠ 404 ∧
    (ServeHTTP cexClient reqCancel).errK = some .illegalState ∧
    (ServeHTTP cexClient reqCancel).status = 500 ∧
    (ServeHTTP cexClient reqCancel).status ≠ 409 := by
  refine ⟨by decide, by decide, by decide, by decide, by decide, by decide⟩

lemma wfC3 : WellFormedKV kvC3 := by
  intro id rec rev h
  simp only [kvC3] at h
  by_cases h1 : id = "r"
  · rw [if_pos h1] at h
    injection h with h'
    have : rec = recR := (congrArg Prod.fst h').symm
    rw [this, h1]; rfl
  · rw [if_neg h1] at h
    by_cases h2 : id = "d"
    · rw [if_pos h2] at h
      injection h with h'
      have : rec = recD := (congrArg Prod.fst h').symm
      rw [this, h2]; rfl
    · rw [if_neg h2] at h
      exact absurd h (by simp)

/-- C3 witness: on the concrete KV, the terminal record `recD` is left
untouched by `FailStaleJobs`. -/
theorem failStaleJobs_spec_witness :
    (FailStaleJobs snapC3 kvC3 100).2 "d" = kvC3 "d" :=
  (failStaleJobs_spec snapC3 kvC3 100 wfC3).1 "d" recD 1 (by decide) (by decide)

/-- C6 counterexample: `FailStaleJobs` transitions the stale record `recR`
to `Failed` (and returns 1), but its reason stays `""`: it neither equals
`"stale: exceeded timeout"` nor contains `"stale"`. -/
theorem failStale_reason_counterexample :
    (FailStaleJobs snapC3 kvC3 100).1 = 1 ∧
    (FailStaleJobs snapC3 kvC3 100).2 "r" =
      some ({recR with status := .Failed, completed := 100}, 2) ∧
    ({recR with status := .Failed, completed := 100} : JobRecord).reason = "" ∧
    containsIgnoreCase
      ({recR with status := .Failed, completed := 100} : JobRecord).reason
      "stale" = false := by
  refine ⟨by decide, by decide, rfl, by decide⟩

/-- C6 witness: on the concrete KV the record `FailStaleJobs` modifies ends
in `Failed` with `completed = now` and its reason carried over unchanged. -/
theorem failStale_reason_unchanged_witness :
    ∃ rec rev, kvC3 "r" = some (rec, rev) ∧
      (FailStaleJobs snapC3 kvC3 100).2 "r" =
        some ({rec with status := .Failed, completed := 100}, rev + 1) ∧
      ({rec with status := .Failed, completed := 100} : JobRecord).reason =
        rec.reason :=
  failStale_reason_unchanged snapC3 kvC3 100 wfC3 "r" (by decide)

end GBA

